import Mathlib

/-!
Shallow embedding of the file organizer engine (file_organizer.py).

The filesystem is modelled as a finite state: a list of existing regular
files, a list of existing directories (both as component lists), and the
undo log as an optional list of text lines (none means the log file does
not exist). Python functions become Lean functions over this state;
raised exceptions become the error branch of Except; environment
dependent I/O failures that the code catches (a failed read of the undo
log, an exception thrown while restoring one line) are modelled by
explicit boolean oracles. The unbounded while loop of unique_path is
modelled with an explicit fuel parameter.
-/

namespace FileOrganizer

/-- A filesystem path, as its list of components (already resolved). -/
abbrev FPath := List String

/-- Python str.lower, restricted to ASCII as used by the extension sets. -/
def lowerStr (s : String) : String := ⟨s.data.map Char.toLower⟩

/-- Python str.upper, restricted to ASCII as used by the action names. -/
def upperStr (s : String) : String := ⟨s.data.map Char.toUpper⟩

/-- Python str.split with a single character separator. -/
def splitOnChar (c : Char) (s : String) : List String :=
  go s.data
where
  go : List Char → List String
    | [] => [""]
    | x :: xs =>
      let r := go xs
      if x = c then "" :: r
      else (⟨x :: (r.headD "").data⟩ : String) :: r.tail

/-- Python str.strip. -/
def trimStr (s : String) : String :=
  ⟨((s.data.dropWhile Char.isWhitespace).reverse.dropWhile Char.isWhitespace).reverse⟩

/-- Rendering of a resolved path as text, as written into the undo log. -/
def pathToString (p : FPath) : String := String.intercalate "/" p

/-- Parsing a textual path back into components, as Path(s) does on a log line. -/
def stringToPath (s : String) : FPath := splitOnChar '/' s

/-- Index of the last occurrence of a character in a list. -/
def lastIdxOf (c : Char) : List Char → Option Nat
  | [] => none
  | x :: xs =>
    match lastIdxOf c xs with
    | some i => some (i + 1)
    | none => if x = c then some 0 else none

/-- Python pathlib stem and suffix of a file name: the suffix starts at the
last dot provided that dot is neither the first nor the last character. -/
def splitExt (name : String) : String × String :=
  let cs := name.data
  match lastIdxOf '.' cs with
  | none => (name, "")
  | some i =>
    if 0 < i && i < cs.length - 1 then (⟨cs.take i⟩, ⟨cs.drop i⟩) else (name, "")

/-- The filesystem and undo log state the engine operates on.
undoLog = none models that undo.log does not exist on disk. -/
structure FS where
  files : List FPath
  dirs : List FPath
  undoLog : Option (List String)
deriving Repr, DecidableEq

/-- Python Path.exists: true for files and for directories. -/
def FS.pathExists (fs : FS) (p : FPath) : Bool :=
  fs.files.contains p || fs.dirs.contains p

/-- Adds a path to a list of entries unless already present. -/
def addEntry (l : List FPath) (p : FPath) : List FPath :=
  if l.contains p then l else l ++ [p]

/-- All the nonempty ancestor paths of a directory, shortest first. -/
def ancestors (p : FPath) : List FPath :=
  (List.range p.length).map (fun i => p.take (i + 1))

/-- Python Path.mkdir with parents=True and exist_ok=True applied to a
directory path: every ancestor of the directory is created. -/
def mkdirParents (dirs : List FPath) (parent : FPath) : List FPath :=
  (ancestors parent).foldl addEntry dirs

/-- Whether q equals p or lies beneath p. -/
def underPath (p q : FPath) : Bool := q.take p.length == p

/-- shutil.rmtree: removes the directory and everything beneath it. -/
def rmtree (fs : FS) (p : FPath) : FS :=
  { fs with
    files := fs.files.filter (fun q => !underPath p q),
    dirs := fs.dirs.filter (fun q => !underPath p q) }

/-- shutil.move of an existing entry (file or directory) to a fresh path. -/
def moveEntry (fs : FS) (src dst : FPath) : FS :=
  if fs.files.contains src then
    { fs with files := addEntry (fs.files.erase src) dst }
  else if fs.dirs.contains src then
    { fs with dirs := addEntry (fs.dirs.erase src) dst }
  else fs

/-- log_undo_operation (file_organizer.py lines 118-124): appends one
pipe delimited record to the undo log, creating the log when absent. -/
def log_undo_operation (fs : FS) (action : String) (src dst : FPath) : FS :=
  { fs with
    undoLog := some ((fs.undoLog.getD []) ++
      [upperStr action ++ "|" ++ pathToString src ++ "|" ++ pathToString dst]) }

/-- The state after the first line of the try block of do_transfer: the
destination parent directories have been created. -/
def do_transfer_mkdir (fs : FS) (dst : FPath) : FS :=
  { fs with dirs := mkdirParents fs.dirs dst.dropLast }

/-- The try block of do_transfer (file_organizer.py lines 129-145): mkdir
of the destination parent, then the dry run early return, then the
dispatch on the action; an unknown action raises ValueError, modelled as
the error branch carrying the message and the state at the raise point. -/
def do_transfer_body (fs : FS) (src dst : FPath) (action : String) (dry_run : Bool) :
    Except (String × FS) (Bool × FS) :=
  if dry_run then .ok (true, do_transfer_mkdir fs dst)
  else if action = "move" then
    if (do_transfer_mkdir fs dst).pathExists src then
      .ok (true, log_undo_operation (moveEntry (do_transfer_mkdir fs dst) src dst) action src dst)
    else .error ("No such file: " ++ pathToString src, do_transfer_mkdir fs dst)
  else if action = "copy" then
    if (do_transfer_mkdir fs dst).files.contains src then
      .ok (true, log_undo_operation
        { do_transfer_mkdir fs dst with files := addEntry (do_transfer_mkdir fs dst).files dst }
        action src dst)
    else .error ("No such file: " ++ pathToString src, do_transfer_mkdir fs dst)
  else .error ("Unknown action: " ++ action, do_transfer_mkdir fs dst)

/-- do_transfer (file_organizer.py lines 127-155): the try block together
with the except clauses, which catch every exception, log it and return
False with whatever state the body left behind. -/
def do_transfer (fs : FS) (src dst : FPath) (action : String) (dry_run : Bool) : Bool × FS :=
  match do_transfer_body fs src dst action dry_run with
  | .ok r => r
  | .error (_, fs1) => (false, fs1)

/-- The numbered sibling probed by unique_path: name (i) with the suffix
kept, in the same parent directory. -/
def numberedSibling (p : FPath) (i : Nat) : FPath :=
  let s := splitExt (p.getLastD "")
  p.dropLast ++ [s.1 ++ " (" ++ toString i ++ ")" ++ s.2]

/-- The while loop of unique_path, with explicit fuel standing for the
unbounded search; the source loop always terminates on a finite
filesystem because only finitely many candidates exist. -/
def unique_path_go (fs : FS) (p : FPath) : Nat → Nat → Option FPath
  | 0, _ => none
  | fuel + 1, i =>
    let candidate := numberedSibling p i
    if fs.pathExists candidate then unique_path_go fs p fuel (i + 1) else some candidate

/-- unique_path (file_organizer.py lines 74-87). -/
def unique_path (fuel : Nat) (fs : FS) (p : FPath) : Option FPath :=
  if fs.pathExists p then unique_path_go fs p fuel 1 else some p

/-- resolve_conflict (file_organizer.py lines 90-115): returns none for a
skip, some path for the path to write to, and the error branch for the
ValueError raised on an unknown policy. The fuel exhausted branch of the
rename policy is unreachable on a finite filesystem and returns the
destination unchanged. -/
def resolve_conflict (fuel : Nat) (fs : FS) (destination : FPath) (policy : String) :
    Except String (Option FPath × FS) :=
  if !fs.pathExists destination then .ok (some destination, fs)
  else if policy = "skip" then .ok (none, fs)
  else if policy = "overwrite" then
    .ok (some destination,
      if fs.dirs.contains destination then rmtree fs destination
      else { fs with files := fs.files.erase destination })
  else if policy = "rename" then
    match unique_path fuel fs destination with
    | some np => .ok (some np, fs)
    | none => .ok (some destination, fs)
  else .error ("Unknown conflict policy: " ++ policy)

/-- The per run options bundle passed through kwargs in the source. -/
structure Opts where
  action : String
  conflict_policy : String
  dry_run : Bool
  skip_unknown : Bool
  fuel : Nat
deriving Repr, DecidableEq

/-- Metadata of one enumerated file: its path plus the stat results the
classifiers read. statOk = false models an OSError from Path.stat. -/
structure FileEntry where
  path : FPath
  statOk : Bool
  year : Nat
  month : Nat
  day : Nat
  size : Nat
deriving Repr, DecidableEq

/-- Python Path.name of an enumerated file. -/
def FileEntry.name (f : FileEntry) : String := f.path.getLastD ""

/-- Python Path.stem of an enumerated file. -/
def FileEntry.stem (f : FileEntry) : String := (splitExt f.name).1

/-- Python Path.suffix of an enumerated file. -/
def FileEntry.ext (f : FileEntry) : String := (splitExt f.name).2

/-- The shared tail of every organizer: resolve the conflict at the
computed destination, skip when the resolver says so, otherwise hand the
file to do_transfer. -/
def finishTransfer (fs : FS) (f : FileEntry) (dest_file : FPath) (o : Opts) :
    Except String (Option Bool × FS) :=
  match resolve_conflict o.fuel fs dest_file o.conflict_policy with
  | .error e => .error e
  | .ok (none, fs1) => .ok (none, fs1)
  | .ok (some d, fs1) =>
    let r := do_transfer fs1 f.path d o.action o.dry_run
    .ok (some r.1, r.2)

/-- organize_by_type (file_organizer.py lines 158-180). -/
def organize_by_type (fs : FS) (f : FileEntry) (dest_root : FPath)
    (ext_index : List (String × String)) (o : Opts) : Except String (Option Bool × FS) :=
  let file_ext := lowerStr f.ext
  match ext_index.lookup file_ext with
  | none =>
    if o.skip_unknown then .ok (none, fs)
    else finishTransfer fs f (dest_root ++ ["Others", f.name]) o
  | some cat => finishTransfer fs f (dest_root ++ [cat, f.name]) o

/-- organize_by_name (file_organizer.py lines 183-189). -/
def organize_by_name (fs : FS) (f : FileEntry) (dest_root : FPath) (o : Opts) :
    Except String (Option Bool × FS) :=
  finishTransfer fs f (dest_root ++ [f.stem, f.name]) o

/-- English month names as produced by strftime %B in the C locale. -/
def monthName : Nat → String
  | 1 => "January" | 2 => "February" | 3 => "March" | 4 => "April"
  | 5 => "May" | 6 => "June" | 7 => "July" | 8 => "August"
  | 9 => "September" | 10 => "October" | 11 => "November" | 12 => "December"
  | _ => ""

/-- Python format specifier 02d. -/
def pad2 (n : Nat) : String := if n < 10 then "0" ++ toString n else toString n

/-- organize_by_date (file_organizer.py lines 192-208): a stat failure is
a per file failure; the broad except clause also turns a ValueError
escaping resolve_conflict into a per file failure. -/
def organize_by_date (fs : FS) (f : FileEntry) (dest_root : FPath) (o : Opts) :
    Except String (Option Bool × FS) :=
  if !f.statOk then .ok (some false, fs)
  else
    let dest_file := dest_root ++ [toString f.year, pad2 f.month ++ "-" ++ monthName f.month, f.name]
    match finishTransfer fs f dest_file o with
    | .error _ => .ok (some false, fs)
    | .ok r => .ok r

/-- organize_by_day (file_organizer.py lines 211-227). -/
def organize_by_day (fs : FS) (f : FileEntry) (dest_root : FPath) (o : Opts) :
    Except String (Option Bool × FS) :=
  if !f.statOk then .ok (some false, fs)
  else
    let dest_file := dest_root ++ [toString f.year, pad2 f.month, pad2 f.day, f.name]
    match finishTransfer fs f dest_file o with
    | .error _ => .ok (some false, fs)
    | .ok r => .ok r

/-- The size category chain of organize_by_size (file_organizer.py lines
233-239): size_mb is the byte size divided by 1024*1024; the division is
modelled over the rationals, which agrees with the float division of the
source on every comparison made here because dividing by a power of two
is exact below 2 to the 53 and any larger size is far above both bounds. -/
def org_size_cat (size : Nat) : String :=
  let size_mb : ℚ := (size : ℚ) / (1024 * 1024)
  if size_mb < 1 then "Small (Under 1MB)"
  else if size_mb < 100 then "Medium (1-100MB)"
  else "Large (Over 100MB)"

/-- The destination computed by organize_by_size. -/
def org_size_dest (f : FileEntry) (dest_root : FPath) : FPath :=
  dest_root ++ [org_size_cat f.size, f.name]

/-- organize_by_size (file_organizer.py lines 230-250). -/
def organize_by_size (fs : FS) (f : FileEntry) (dest_root : FPath) (o : Opts) :
    Except String (Option Bool × FS) :=
  if !f.statOk then .ok (some false, fs)
  else
    match finishTransfer fs f (org_size_dest f dest_root) o with
    | .error _ => .ok (some false, fs)
    | .ok r => .ok r

/-- Python str.isalpha on a one character string, ASCII fragment. -/
def isAlphaStr (s : String) : Bool := !s.isEmpty && s.data.all Char.isAlpha

/-- organize_by_first_letter (file_organizer.py lines 253-261). -/
def organize_by_first_letter (fs : FS) (f : FileEntry) (dest_root : FPath) (o : Opts) :
    Except String (Option Bool × FS) :=
  let first_letter := if f.stem.isEmpty then "#" else upperStr (f.stem.take 1)
  let cat := if isAlphaStr first_letter then first_letter else "#"
  finishTransfer fs f (dest_root ++ [cat, f.name]) o

/-- One step of the extension loop of build_ext_index (file_organizer.py
lines 59-66): empty extensions are skipped, a fresh lowercased extension
is appended to the index, a repeated one is recorded as a duplicate. -/
def addExts (cat : String) : List String → List (String × String) × List String →
    List (String × String) × List String
  | [], acc => acc
  | e :: rest, (idx, dups) =>
    if e = "" then addExts cat rest (idx, dups)
    else
      let el := lowerStr e
      match idx.lookup el with
      | some firstCat =>
        addExts cat rest (idx, dups ++ [el ++ " in both " ++ firstCat ++ " and " ++ cat])
      | none => addExts cat rest (idx ++ [(el, cat)], dups)

/-- build_ext_index (file_organizer.py lines 54-71): categories are
iterated in order, each extension set in its listed order; returns the
extension index together with the reported duplicate findings. -/
def build_ext_index (categories : List (String × List String)) :
    List (String × String) × List String :=
  go categories ([], [])
where
  go : List (String × List String) → List (String × String) × List String →
      List (String × String) × List String
    | [], acc => acc
    | (cat, exts) :: rest, acc => go rest (addExts cat exts acc)

/-- Specification side description used to state the index claim: the
first category, in iteration order, listing an extension whose lowercase
form is the given key. -/
def firstListingCategory (categories : List (String × List String)) (el : String) :
    Option String :=
  match categories with
  | [] => none
  | (cat, exts) :: rest =>
    if exts.any (fun e => decide (e ≠ "") && (lowerStr e == el)) then some cat
    else firstListingCategory rest el

/-- Number of nonempty extension occurrences across all categories. -/
def extOccCount (categories : List (String × List String)) : Nat :=
  (categories.map (fun ce => (ce.2.filter (fun e => e ≠ "")).length)).sum

/-- The statistics dictionary returned by process_directory. -/
structure RunStats where
  total : Nat
  processed : Nat
  succeeded : Nat
  failed : Nat
  skipped : Nat
  error : Option String
deriving Repr, DecidableEq

/-- The ORGANIZERS dispatch table (file_organizer.py lines 264-271),
restricted to the six known modes; process_directory rejects any other
mode before this dispatch is reached. -/
def runOrganizer (mode : String) (fs : FS) (f : FileEntry) (dest : FPath)
    (ext_index : List (String × String)) (o : Opts) : Except String (Option Bool × FS) :=
  if mode = "type" then organize_by_type fs f dest ext_index o
  else if mode = "name" then organize_by_name fs f dest o
  else if mode = "date" then organize_by_date fs f dest o
  else if mode = "day" then organize_by_day fs f dest o
  else if mode = "size" then organize_by_size fs f dest o
  else organize_by_first_letter fs f dest o

/-- The keys of the ORGANIZERS table. -/
def knownModes : List String := ["type", "name", "date", "day", "size", "first_letter"]

/-- The per file loop of process_directory (file_organizer.py lines
458-474): before each file the cancellation event is polled (modelled as
a predicate on the 1 based iteration index); a set event stops the loop;
each processed file bumps processed plus exactly one of succeeded,
failed, skipped according to the organizer result. Counters are returned
as (processed, succeeded, failed, skipped). -/
def process_loop (mode : String) (dest : FPath) (ext_index : List (String × String))
    (o : Opts) (cancel : Nat → Bool) (fs : FS) (files : List FileEntry) (idx : Nat) :
    Except String ((Nat × Nat × Nat × Nat) × FS) :=
  match files with
  | [] => .ok ((0, 0, 0, 0), fs)
  | f :: rest =>
    if cancel idx then .ok ((0, 0, 0, 0), fs)
    else
      match runOrganizer mode fs f dest ext_index o with
      | .error e => .error e
      | .ok (r, fs1) =>
        match process_loop mode dest ext_index o cancel fs1 rest (idx + 1) with
        | .error e => .error e
        | .ok ((p, s, fl, sk), fs2) =>
          match r with
          | none => .ok ((p + 1, s, fl, sk + 1), fs2)
          | some true => .ok ((p + 1, s + 1, fl, sk), fs2)
          | some false => .ok ((p + 1, s, fl + 1, sk), fs2)

/-- process_directory (file_organizer.py lines 415-482). The outcome of
validate_paths is passed in as a boolean plus message, since it depends
only on the host platform and the real directory layout; the file list
and the category map are parameters exactly as the kwargs of the source
allow. The error branch models an exception (the ValueError of
resolve_conflict) escaping the call. -/
def process_directory (fs : FS) (validOk : Bool) (errMsg : String) (mode : String)
    (files : List FileEntry) (dest : FPath) (categories : List (String × List String))
    (o : Opts) (cancel : Nat → Bool) : Except String (RunStats × FS) :=
  if !validOk then
    .ok (⟨0, 0, 0, 0, 0, some errMsg⟩, fs)
  else if !knownModes.contains mode then
    .ok (⟨0, 0, 0, 0, 0, some ("Unknown organization mode: " ++ mode)⟩, fs)
  else
    let total := files.length
    if total = 0 then .ok (⟨0, 0, 0, 0, 0, none⟩, fs)
    else
      let ext_index := if mode = "type" then (build_ext_index categories).1 else []
      match process_loop mode dest ext_index o cancel fs files 1 with
      | .error e => .error e
      | .ok ((p, s, fl, sk), fs1) => .ok (⟨total, p, s, fl, sk, none⟩, fs1)

/-- clear_undo_log (file_organizer.py lines 300-307): unlinks the log
file when it exists. -/
def clear_undo_log (fs : FS) : FS :=
  if fs.undoLog.isSome then { fs with undoLog := none } else fs

/-- The statistics dictionary returned by perform_undo. -/
structure UndoStats where
  total : Nat
  succeeded : Nat
  failed : Nat
deriving Repr, DecidableEq

/-- One iteration of the undo loop (file_organizer.py lines 328-357):
strip and split the line on the pipe character; a wrong field count is a
failure whose continue statement also jumps past the on_progress call at
the loop tail; a missing destination is a failure; otherwise the parent
of the original source is created and the file moved back, where
restoreFails models an exception (such as PermissionError) thrown by the
restore at this iteration index. Returns (progressCalled, success,
state): progressCalled is false exactly on the malformed line continue
path. -/
def undo_step (restoreFails : Nat → Bool) (idx : Nat) (fs : FS) (line : String) :
    Bool × Bool × FS :=
  let parts := splitOnChar '|' (trimStr line)
  if parts.length ≠ 3 then (false, false, fs)
  else
    let original_src := stringToPath (parts.getD 1 "")
    let final_dst := stringToPath (parts.getD 2 "")
    if fs.pathExists final_dst then
      let fs1 : FS := { fs with dirs := mkdirParents fs.dirs original_src.dropLast }
      if restoreFails idx then (true, false, fs1)
      else (true, true, moveEntry fs1 final_dst original_src)
    else (true, false, fs)

/-- The undo loop over the reversed log lines, with a 1 based index;
returns (succeeded, failed, state, progress calls, lines processed in
order). The last two components record the observable callback calls
(skipped for a malformed line, whose continue bypasses the call at lines
356-357) and the order in which the loop consumed the lines. -/
def undo_loop (restoreFails : Nat → Bool) (total : Nat) (fs : FS) (ls : List String)
    (idx : Nat) : Nat × Nat × FS × List (Nat × Nat) × List String :=
  match ls with
  | [] => (0, 0, fs, [], [])
  | l :: rest =>
    let step := undo_step restoreFails idx fs l
    let r := undo_loop restoreFails total step.2.2 rest (idx + 1)
    ((if step.2.1 then r.1 + 1 else r.1), (if step.2.1 then r.2.1 else r.2.1 + 1),
      r.2.2.1, (if step.1 then (idx, total) :: r.2.2.2.1 else r.2.2.2.1), l :: r.2.2.2.2)

/-- perform_undo (file_organizer.py lines 310-360). readFails models an
IOError while reading the existing log file. Returns the statistics, the
final state, the list of progress callback calls, and the log lines in
the order they were processed. -/
def perform_undo (restoreFails : Nat → Bool) (readFails : Bool) (fs : FS) :
    UndoStats × FS × List (Nat × Nat) × List String :=
  match fs.undoLog with
  | none => (⟨0, 0, 0⟩, fs, [(0, 0)], [])
  | some lines =>
    if readFails then (⟨0, 0, 0⟩, fs, [], [])
    else
      let total := lines.length
      let r := undo_loop restoreFails total fs lines.reverse 1
      (⟨total, r.1, r.2.1⟩, clear_undo_log r.2.2.1, r.2.2.2.1, r.2.2.2.2)

/-- Undo log extension order: the second state holds every log record of
the first, in order, possibly followed by newly appended records. -/
def logExtends (a b : FS) : Prop :=
  ∃ t, b.undoLog.getD [] = a.undoLog.getD [] ++ t

instance {ε α : Type} [DecidableEq ε] [DecidableEq α] : DecidableEq (Except ε α) := fun x y =>
  match x, y with
  | .ok a, .ok b =>
    if h : a = b then .isTrue (by rw [h]) else .isFalse (fun he => h (Except.ok.inj he))
  | .error a, .error b =>
    if h : a = b then .isTrue (by rw [h]) else .isFalse (fun he => h (Except.error.inj he))
  | .ok _, .error _ => .isFalse (fun he => Except.noConfusion he)
  | .error _, .ok _ => .isFalse (fun he => Except.noConfusion he)

/-! Concrete states used by the closed evaluation theorems. -/

/-- A state with one source file and two top level directories. -/
def fsSrcOnly : FS := ⟨[["s", "f.txt"]], [["s"], ["d"]], none⟩

/-- A state holding just the file x.txt. -/
def fsOneFile : FS := ⟨[["x.txt"]], [], none⟩

/-- The empty filesystem. -/
def fsEmpty : FS := ⟨[], [], none⟩

/-- A state where a.txt and its first numbered sibling already exist. -/
def fsRenameProbe : FS := ⟨[["a.txt"], ["a (1).txt"]], [], none⟩

/-- A run input state whose undo log already holds a record of an earlier run. -/
def runFS0 : FS := ⟨[["src", "a.txt"]], [["src"], ["d"]], some ["OLD"]⟩

/-- The single file enumerated in the sample run. -/
def runFile0 : FileEntry := ⟨["src", "a.txt"], true, 2023, 1, 1, 10⟩

/-- The options of the sample run: a real move with the rename policy. -/
def runOpts0 : Opts := ⟨"move", "rename", false, false, 5⟩

/-- The state after the sample run on runFS0. -/
def runFS1 : FS :=
  ⟨[["d", "a", "a.txt"]], [["src"], ["d"], ["d", "a"]], some ["OLD", "MOVE|src/a.txt|d/a/a.txt"]⟩

/-- An undo log with one malformed line and one restorable record. -/
def undoFS0 : FS := ⟨[["dst", "a.txt"]], [["dst"]], some ["BAD", "MOVE|src/a.txt|dst/a.txt"]⟩

/-- A category map with an uppercase listing, a duplicate and an empty extension. -/
def demoCats : List (String × List String) := [("Code", [".py", ".JSON"]), ("Data", [".json", ""])]

/-- A three byte file used with the size classifier. -/
def sizeFile0 : FileEntry := ⟨["s", "f.bin"], true, 2023, 1, 1, 3⟩

/-- Options for a dry size mode transfer. -/
def sizeOpts0 : Opts := ⟨"move", "rename", true, false, 1⟩

/-! Theorems. -/

/-- C1: the claim that a dry run performs no filesystem mutation at all is
refuted: do_transfer runs mkdir on the destination parent before checking
the dry run flag, so the dry run below creates the directory d/Images,
which did not exist before, under the destination root. -/
theorem C1_dry_run_counterexample :
    (do_transfer fsSrcOnly ["s", "f.txt"] ["d", "Images", "f.txt"] "move" true).1 = true ∧
    (do_transfer fsSrcOnly ["s", "f.txt"] ["d", "Images", "f.txt"] "move" true).2.dirs.contains
      ["d", "Images"] = true ∧
    fsSrcOnly.dirs.contains ["d", "Images"] = false := by
  decide

/-- C1 (amended): for every source, destination and action, a dry run
transfer returns success, leaves the set of files and the undo log
untouched, and mutates the filesystem only by creating the destination
parent directories (the mkdir that runs before the dry run check). -/
theorem C1_dry_run_amended (fs : FS) (src dst : FPath) (action : String) :
    (do_transfer fs src dst action true).1 = true ∧
    (do_transfer fs src dst action true).2.files = fs.files ∧
    (do_transfer fs src dst action true).2.undoLog = fs.undoLog ∧
    (do_transfer fs src dst action true).2.dirs = mkdirParents fs.dirs dst.dropLast := by
  simp [do_transfer, do_transfer_body, do_transfer_mkdir]

/-- C3: the claim that do_transfer raises an invalid argument error on an
unknown action is refuted at action delete: the ValueError raised inside
the try block (visible as the error branch of do_transfer_body) is caught
by the functions own blanket except clause, so do_transfer returns the
ordinary per file failure False, and with dry_run it even returns True. -/
theorem C3_unknown_action_counterexample :
    (do_transfer fsSrcOnly ["s", "f.txt"] ["d", "x.txt"] "delete" false).1 = false ∧
    (do_transfer fsSrcOnly ["s", "f.txt"] ["d", "x.txt"] "delete" true).1 = true ∧
    do_transfer_body fsSrcOnly ["s", "f.txt"] ["d", "x.txt"] "delete" false =
      .error ("Unknown action: delete",
        { fsSrcOnly with dirs := mkdirParents fsSrcOnly.dirs ["d"] }) := by
  exact ⟨rfl, rfl, rfl⟩

/-- C3 (amended): for every action outside move and copy, the ValueError
raised inside do_transfer is swallowed by its own generic exception
handler: with dry_run false the call returns the ordinary per file
failure False (with the destination parents already created), with
dry_run true it returns success, and the raise is visible only in the
uncaught body do_transfer_body. -/
theorem C3_unknown_action_amended (fs : FS) (src dst : FPath) (action : String)
    (h1 : action ≠ "move") (h2 : action ≠ "copy") :
    do_transfer fs src dst action false =
      (false, { fs with dirs := mkdirParents fs.dirs dst.dropLast }) ∧
    do_transfer fs src dst action true =
      (true, { fs with dirs := mkdirParents fs.dirs dst.dropLast }) ∧
    do_transfer_body fs src dst action false =
      .error ("Unknown action: " ++ action,
        { fs with dirs := mkdirParents fs.dirs dst.dropLast }) := by
  simp [do_transfer, do_transfer_body, do_transfer_mkdir, h1, h2]

/-- Witness for the amended C3 theorem at the concrete action delete. -/
theorem C3_unknown_action_witness :
    do_transfer fsSrcOnly ["s", "f.txt"] ["d", "x.txt"] "delete" false =
      (false, { fsSrcOnly with dirs := mkdirParents fsSrcOnly.dirs ["d"] }) :=
  (C3_unknown_action_amended fsSrcOnly ["s", "f.txt"] ["d", "x.txt"] "delete"
    (by decide) (by decide)).1

/-- C4: the claim that resolve_conflict raises an invalid argument error
for every unknown policy and every destination is refuted: when the
destination does not exist the function returns it unchanged before ever
inspecting the policy, here with the unknown policy bogus. -/
theorem C4_unknown_policy_counterexample :
    resolve_conflict 1 fsEmpty ["x.txt"] "bogus" = .ok (some ["x.txt"], fsEmpty) := rfl

/-- C4 (amended): for every policy outside skip, overwrite and rename,
resolve_conflict raises the invalid argument ValueError exactly when the
destination exists; a nonexistent destination is returned unchanged
without the policy being validated. -/
theorem C4_unknown_policy_amended (fuel : Nat) (fs : FS) (dest : FPath) (policy : String)
    (h1 : policy ≠ "skip") (h2 : policy ≠ "overwrite") (h3 : policy ≠ "rename") :
    (fs.pathExists dest = true →
      resolve_conflict fuel fs dest policy = .error ("Unknown conflict policy: " ++ policy)) ∧
    (fs.pathExists dest = false →
      resolve_conflict fuel fs dest policy = .ok (some dest, fs)) := by
  constructor <;> intro h <;> simp [resolve_conflict, h, h1, h2, h3]

/-- Witness for the amended C4 theorem at the concrete policy bogus, in
both the existing and the missing destination case. -/
theorem C4_unknown_policy_witness :
    resolve_conflict 1 fsOneFile ["x.txt"] "bogus" =
      .error ("Unknown conflict policy: bogus") ∧
    resolve_conflict 1 fsEmpty ["y.txt"] "bogus" = .ok (some ["y.txt"], fsEmpty) := by
  constructor
  · exact (C4_unknown_policy_amended 1 fsOneFile ["x.txt"] "bogus"
      (by decide) (by decide) (by decide)).1 (by decide)
  · exact (C4_unknown_policy_amended 1 fsEmpty ["y.txt"] "bogus"
      (by decide) (by decide) (by decide)).2 (by decide)

/-- The search loop of unique_path, started at index j with enough fuel,
returns the first free numbered sibling when every candidate from j up to
N is taken and candidate N + 1 is free. -/
theorem unique_path_go_spec (fs : FS) (p : FPath) (N : Nat)
    (hfree : fs.pathExists (numberedSibling p (N + 1)) = false) :
    ∀ fuel j, 1 ≤ j → j ≤ N + 1 → N + 2 ≤ fuel + j →
    (∀ i, j ≤ i → i ≤ N → fs.pathExists (numberedSibling p i) = true) →
    unique_path_go fs p fuel j = some (numberedSibling p (N + 1)) := by
  intro fuel
  induction fuel with
  | zero => intro j h1 h2 h3 _; omega
  | succ f ih =>
    intro j h1 h2 h3 hex
    by_cases hj : j = N + 1
    · subst hj
      simp [unique_path_go, hfree]
    · have hjN : j ≤ N := by omega
      have htaken : fs.pathExists (numberedSibling p j) = true := hex j le_rfl hjN
      simp only [unique_path_go, htaken, if_true]
      exact ih (j + 1) (by omega) (by omega) (by omega) (fun i hi1 hi2 => hex i (by omega) hi2)

/-- C7: if destination p exists, the numbered siblings p (1) through
p (N) all exist and p (N + 1) does not, then the rename policy resolves
the conflict to exactly p (N + 1), the first unused candidate in probing
order, and leaves the state untouched. The fuel bound only reflects that
the source while loop runs N + 1 iterations. -/
theorem C7_rename_first_free (fs : FS) (p : FPath) (N fuel : Nat)
    (hp : fs.pathExists p = true)
    (hnum : ∀ i, 1 ≤ i → i ≤ N → fs.pathExists (numberedSibling p i) = true)
    (hfree : fs.pathExists (numberedSibling p (N + 1)) = false)
    (hfuel : N + 1 ≤ fuel) :
    resolve_conflict fuel fs p "rename" = .ok (some (numberedSibling p (N + 1)), fs) := by
  have hgo := unique_path_go_spec fs p N hfree fuel 1 le_rfl (by omega) (by omega)
    (fun i hi1 hi2 => hnum i hi1 hi2)
  simp [resolve_conflict, hp, unique_path, hgo]

/-- Witness for C7 with one existing numbered sibling: the probe skips
a (1).txt and returns a (2).txt. -/
theorem C7_rename_first_free_witness :
    resolve_conflict 3 fsRenameProbe ["a.txt"] "rename" =
      .ok (some ["a (2).txt"], fsRenameProbe) := by
  have h := C7_rename_first_free fsRenameProbe ["a.txt"] 1 3 (by decide)
    (fun i h1 h2 => by
      have hi : i = 1 := Nat.le_antisymm h2 h1
      subst hi; decide)
    (by decide) (by omega)
  exact h

/-- C8: the size classifier is Small exactly below one MiB, Medium
exactly between one MiB inclusive and one hundred MiB exclusive, Large
exactly from one hundred MiB up; both boundary sizes land in the upper
tier; and organize_by_size hands the transfer exactly the destination
destinationRoot/sizeCategory/filename (org_size_dest). -/
theorem C8_size_classifier :
    (∀ s : Nat,
      (org_size_cat s = "Small (Under 1MB)" ↔ s < 1048576) ∧
      (org_size_cat s = "Medium (1-100MB)" ↔ 1048576 ≤ s ∧ s < 104857600) ∧
      (org_size_cat s = "Large (Over 100MB)" ↔ 104857600 ≤ s)) ∧
    org_size_cat 1048576 = "Medium (1-100MB)" ∧
    org_size_cat 104857600 = "Large (Over 100MB)" ∧
    (∀ (fs : FS) (f : FileEntry) (root : FPath) (o : Opts),
      f.statOk = true → fs.pathExists (org_size_dest f root) = false →
      organize_by_size fs f root o =
        .ok (some (do_transfer fs f.path (org_size_dest f root) o.action o.dry_run).1,
          (do_transfer fs f.path (org_size_dest f root) o.action o.dry_run).2)) := by
  have base : ∀ s : Nat,
      (org_size_cat s = "Small (Under 1MB)" ↔ s < 1048576) ∧
      (org_size_cat s = "Medium (1-100MB)" ↔ 1048576 ≤ s ∧ s < 104857600) ∧
      (org_size_cat s = "Large (Over 100MB)" ↔ 104857600 ≤ s) := by
    intro s
    have k1 : ((s : ℚ) / (1024 * 1024) < 1) ↔ s < 1048576 := by
      rw [div_lt_one (by norm_num)]
      exact_mod_cast Iff.rfl
    have k2 : ((s : ℚ) / (1024 * 1024) < 100) ↔ s < 104857600 := by
      rw [div_lt_iff₀ (by norm_num)]
      norm_num
    unfold org_size_cat
    by_cases h1 : ((s : ℚ) / (1024 * 1024) < 1)
    · have hs : s < 1048576 := k1.mp h1
      simp only [h1, if_true]
      refine ⟨by simp [hs], ?_, ?_⟩ <;> constructor <;> intro h
      · exact absurd h (by decide)
      · omega
      · exact absurd h (by decide)
      · omega
    · have hs : 1048576 ≤ s := by
        have := (not_iff_not.mpr k1).mp h1
        omega
      by_cases h2 : ((s : ℚ) / (1024 * 1024) < 100)
      · have hs2 : s < 104857600 := k2.mp h2
        simp only [h1, h2, if_false, if_true]
        refine ⟨?_, by simp [hs, hs2], ?_⟩ <;> constructor <;> intro h
        · exact absurd h (by decide)
        · omega
        · exact absurd h (by decide)
        · omega
      · have hs2 : 104857600 ≤ s := by
          have := (not_iff_not.mpr k2).mp h2
          omega
        simp only [h1, h2, if_false]
        refine ⟨?_, ?_, by simp [hs2]⟩ <;> constructor <;> intro h
        · exact absurd h (by decide)
        · omega
        · exact absurd h (by decide)
        · omega
  refine ⟨base, ?_, ?_, ?_⟩
  · exact (base 1048576).2.1.mpr (by omega)
  · exact (base 104857600).2.2.mpr (by omega)
  · intro fs f root o h1 h2
    simp [organize_by_size, finishTransfer, resolve_conflict, h1, h2]

/-- Witness for C8 at a three byte file on the empty filesystem. -/
theorem C8_size_classifier_witness :
    org_size_cat 3 = "Small (Under 1MB)" ∧
    organize_by_size fsEmpty sizeFile0 ["d"] sizeOpts0 =
      .ok (some (do_transfer fsEmpty sizeFile0.path (org_size_dest sizeFile0 ["d"])
            sizeOpts0.action sizeOpts0.dry_run).1,
        (do_transfer fsEmpty sizeFile0.path (org_size_dest sizeFile0 ["d"])
            sizeOpts0.action sizeOpts0.dry_run).2) := by
  constructor
  · exact ((C8_size_classifier.1 3).1).mpr (by omega)
  · exact C8_size_classifier.2.2.2 fsEmpty sizeFile0 ["d"] sizeOpts0 rfl rfl

/-- Association lookup distributes over append, first list first. -/
theorem lookup_append (a : String) (l1 l2 : List (String × String)) :
    (l1 ++ l2).lookup a = ((l1.lookup a).orElse fun _ => l2.lookup a) := by
  induction l1 with
  | nil => simp [List.lookup]
  | cons kv t ih =>
    obtain ⟨k, v⟩ := kv
    by_cases h : a = k
    · have hb : (a == k) = true := beq_iff_eq.mpr h
      simp [List.lookup, hb]
    · have hb : (a == k) = false := beq_eq_false_iff_ne.mpr h
      simp [List.lookup, hb, ih]

/-- A key already bound in the index keeps its binding through addExts. -/
theorem addExts_lookup_some (cat : String) (exts : List String) (idx : List (String × String))
    (dups : List String) (el v : String) (h : idx.lookup el = some v) :
    (addExts cat exts (idx, dups)).1.lookup el = some v := by
  induction exts generalizing idx dups with
  | nil => simpa [addExts] using h
  | cons e rest ih =>
    by_cases he : e = ""
    · simpa [addExts, he] using ih idx dups h
    · cases hl : idx.lookup (lowerStr e) with
      | some fc =>
        simpa [addExts, he, hl] using ih idx _ h
      | none =>
        simp only [addExts, he, hl, if_neg, if_false]
        refine ih _ _ ?_
        rw [lookup_append, h]
        rfl

/-- A key not yet bound gets bound by addExts exactly when the extension
list contains a nonempty extension with that lowercase form, and then to
the category being added. -/
theorem addExts_lookup_none (cat : String) (exts : List String) (idx : List (String × String))
    (dups : List String) (el : String) (h : idx.lookup el = none) :
    (addExts cat exts (idx, dups)).1.lookup el =
      if exts.any (fun e => decide (e ≠ "") && (lowerStr e == el)) then some cat else none := by
  induction exts generalizing idx dups with
  | nil => simpa [addExts] using h
  | cons e rest ih =>
    by_cases he : e = ""
    · subst he
      simpa [addExts] using ih idx dups h
    · by_cases hee : lowerStr e = el
      · have hl : idx.lookup (lowerStr e) = none := by rw [hee]; exact h
        rw [show addExts cat (e :: rest) (idx, dups) =
          addExts cat rest (idx ++ [(lowerStr e, cat)], dups)
          from by simp [addExts, he, hl]]
        have hb : (idx ++ [(lowerStr e, cat)]).lookup el = some cat := by
          rw [lookup_append, h]
          have hbeq : (el == lowerStr e) = true := beq_iff_eq.mpr hee.symm
          simp [List.lookup, hbeq]
        rw [addExts_lookup_some cat rest _ dups el cat hb]
        have hcond : ((e :: rest).any fun x => decide (x ≠ "") && (lowerStr x == el)) = true := by
          simp [List.any_cons, he, hee]
        rw [hcond]
        simp
      · have hne : (lowerStr e == el) = false := beq_eq_false_iff_ne.mpr hee
        have hcond : ((e :: rest).any fun x => decide (x ≠ "") && (lowerStr x == el)) =
            (rest.any fun x => decide (x ≠ "") && (lowerStr x == el)) := by
          simp [List.any_cons, hne]
        cases hl : idx.lookup (lowerStr e) with
        | some fc =>
          rw [show addExts cat (e :: rest) (idx, dups) =
            addExts cat rest (idx, dups ++ [lowerStr e ++ " in both " ++ fc ++ " and " ++ cat])
            from by simp [addExts, he, hl]]
          rw [ih idx _ h, hcond]
        | none =>
          rw [show addExts cat (e :: rest) (idx, dups) =
            addExts cat rest (idx ++ [(lowerStr e, cat)], dups)
            from by simp [addExts, he, hl]]
          have h2 : (idx ++ [(lowerStr e, cat)]).lookup el = none := by
            rw [lookup_append, h]
            have hbeq : (el == lowerStr e) = false :=
              beq_eq_false_iff_ne.mpr (fun hc => hee hc.symm)
            simp [List.lookup, hbeq]
          rw [ih _ dups h2, hcond]

/-- Every nonempty extension occurrence processed by addExts lands either
in the index or in the duplicate report. -/
theorem addExts_count (cat : String) (exts : List String) (idx : List (String × String))
    (dups : List String) :
    (addExts cat exts (idx, dups)).1.length + (addExts cat exts (idx, dups)).2.length =
      idx.length + dups.length + (exts.filter (fun e => e ≠ "")).length := by
  induction exts generalizing idx dups with
  | nil => simp [addExts]
  | cons e rest ih =>
    by_cases he : e = ""
    · subst he
      simpa [addExts] using ih idx dups
    · have hfil : (List.filter (fun x => decide (x ≠ "")) (e :: rest)).length =
          (List.filter (fun x => decide (x ≠ "")) rest).length + 1 := by
        simp [List.filter_cons, he]
      cases hl : idx.lookup (lowerStr e) with
      | some fc =>
        rw [show addExts cat (e :: rest) (idx, dups) =
          addExts cat rest (idx, dups ++ [lowerStr e ++ " in both " ++ fc ++ " and " ++ cat])
          from by simp [addExts, he, hl]]
        rw [ih idx _, hfil]
        simp only [List.length_append, List.length_cons, List.length_nil]
        omega
      | none =>
        rw [show addExts cat (e :: rest) (idx, dups) =
          addExts cat rest (idx ++ [(lowerStr e, cat)], dups)
          from by simp [addExts, he, hl]]
        rw [ih _ dups, hfil]
        simp only [List.length_append, List.length_cons, List.length_nil]
        omega

/-- A key bound in the accumulator keeps its binding through the whole
category fold of build_ext_index. -/
theorem build_go_lookup_some (cats : List (String × List String))
    (idx : List (String × String)) (dups : List String) (el v : String)
    (h : idx.lookup el = some v) :
    (build_ext_index.go cats (idx, dups)).1.lookup el = some v := by
  induction cats generalizing idx dups with
  | nil => simpa [build_ext_index.go] using h
  | cons hd rest ih =>
    obtain ⟨cat, exts⟩ := hd
    simpa [build_ext_index.go] using ih _ _ (addExts_lookup_some cat exts idx dups el v h)

/-- A key unbound in the accumulator ends up bound to the first category
listing it, in iteration order. -/
theorem build_go_lookup_none (cats : List (String × List String))
    (idx : List (String × String)) (dups : List String) (el : String)
    (h : idx.lookup el = none) :
    (build_ext_index.go cats (idx, dups)).1.lookup el = firstListingCategory cats el := by
  induction cats generalizing idx dups with
  | nil => simpa [build_ext_index.go, firstListingCategory] using h
  | cons hd rest ih =>
    obtain ⟨cat, exts⟩ := hd
    by_cases hany : exts.any (fun e => decide (e ≠ "") && (lowerStr e == el)) = true
    · have hb : (addExts cat exts (idx, dups)).1.lookup el = some cat := by
        rw [addExts_lookup_none cat exts idx dups el h, if_pos hany]
      simp only [build_ext_index.go, firstListingCategory, hany, if_true]
      exact build_go_lookup_some rest _ _ el cat hb
    · have hb : (addExts cat exts (idx, dups)).1.lookup el = none := by
        rw [addExts_lookup_none cat exts idx dups el h, if_neg hany]
      simp only [build_ext_index.go, firstListingCategory, hany, if_false]
      exact ih _ _ hb

/-- Index entries plus duplicate reports account for every nonempty
extension occurrence seen by the category fold. -/
theorem build_go_count (cats : List (String × List String))
    (idx : List (String × String)) (dups : List String) :
    (build_ext_index.go cats (idx, dups)).1.length +
      (build_ext_index.go cats (idx, dups)).2.length =
      idx.length + dups.length + extOccCount cats := by
  induction cats generalizing idx dups with
  | nil => simp [build_ext_index.go, extOccCount]
  | cons hd rest ih =>
    obtain ⟨cat, exts⟩ := hd
    have h1 := ih (addExts cat exts (idx, dups)).1 (addExts cat exts (idx, dups)).2
    rw [Prod.mk.eta] at h1
    have h2 := addExts_count cat exts idx dups
    simp only [build_ext_index.go]
    simp only [extOccCount, List.map_cons, List.sum_cons] at *
    omega

/-- A nonempty extension of a listed category is matched by some category
in firstListingCategory. -/
theorem firstListingCategory_isSome (cats : List (String × List String))
    (cat : String) (exts : List String) (e : String)
    (hmem : (cat, exts) ∈ cats) (hee : e ∈ exts) (hne : e ≠ "") :
    (firstListingCategory cats (lowerStr e)).isSome = true := by
  induction cats with
  | nil => cases hmem
  | cons hd rest ih =>
    obtain ⟨c, es⟩ := hd
    rcases List.mem_cons.mp hmem with heq | htail
    · have hexts : exts = es := congrArg Prod.snd heq
      have hany : (es.any fun x => decide (x ≠ "") && (lowerStr x == lowerStr e)) = true := by
        rw [List.any_eq_true]
        exact ⟨e, hexts ▸ hee, by simp [hne]⟩
      show (if (es.any fun x => decide (x ≠ "") && (lowerStr x == lowerStr e)) = true
        then some c else firstListingCategory rest (lowerStr e)).isSome = true
      rw [if_pos hany]
      rfl
    · show (if (es.any fun x => decide (x ≠ "") && (lowerStr x == lowerStr e)) = true
        then some c else firstListingCategory rest (lowerStr e)).isSome = true
      by_cases hany : (es.any fun x => decide (x ≠ "") && (lowerStr x == lowerStr e)) = true
      · rw [if_pos hany]
        rfl
      · rw [if_neg hany]
        exact ih htail

/-- C6: for every category map the index built by build_ext_index agrees
with firstListingCategory on every key, so every nonempty extension of
any category appears (lowercased) in the index mapped to the category
that listed it first in iteration order; and index entries plus reported
duplicates account for every nonempty extension occurrence, so no
assignment is silently dropped. -/
theorem C6_build_ext_index (cats : List (String × List String)) :
    (∀ el, (build_ext_index cats).1.lookup el = firstListingCategory cats el) ∧
    ((build_ext_index cats).1.length + (build_ext_index cats).2.length = extOccCount cats) ∧
    (∀ cat exts e, (cat, exts) ∈ cats → e ∈ exts → e ≠ "" →
      ∃ c0, (build_ext_index cats).1.lookup (lowerStr e) = some c0 ∧
        firstListingCategory cats (lowerStr e) = some c0) := by
  refine ⟨fun el => build_go_lookup_none cats [] [] el rfl,
    by simpa using build_go_count cats [] [], ?_⟩
  intro cat exts e hmem hee hne
  have h1 : (build_ext_index cats).1.lookup (lowerStr e) =
      firstListingCategory cats (lowerStr e) :=
    build_go_lookup_none cats [] [] (lowerStr e) rfl
  have h2 := firstListingCategory_isSome cats cat exts e hmem hee hne
  obtain ⟨c0, hc0⟩ := Option.isSome_iff_exists.mp h2
  exact ⟨c0, by rw [h1, hc0], hc0⟩

/-- Witness for C6 on demoCats, where .JSON in Code and .json in Data
collide and the empty extension is ignored. -/
theorem C6_build_ext_index_witness :
    (build_ext_index demoCats).1.lookup ".json" = firstListingCategory demoCats ".json" ∧
    (build_ext_index demoCats).1.length + (build_ext_index demoCats).2.length =
      extOccCount demoCats ∧
    (∃ c0, (build_ext_index demoCats).1.lookup (lowerStr ".JSON") = some c0 ∧
      firstListingCategory demoCats (lowerStr ".JSON") = some c0) :=
  ⟨(C6_build_ext_index demoCats).1 ".json", (C6_build_ext_index demoCats).2.1,
    (C6_build_ext_index demoCats).2.2 "Code" [".py", ".JSON"] ".JSON"
      (by decide) (by decide) (by decide)⟩

/-- The per file loop splits processed into succeeded, failed and skipped,
and never processes more files than remain. -/
theorem process_loop_counts (mode : String) (dest : FPath) (ext_index : List (String × String))
    (o : Opts) (cancel : Nat → Bool) :
    ∀ (files : List FileEntry) (fs : FS) (idx : Nat) (c : Nat × Nat × Nat × Nat) (fs2 : FS),
    process_loop mode dest ext_index o cancel fs files idx = .ok (c, fs2) →
    c.1 = c.2.1 + c.2.2.1 + c.2.2.2 ∧ c.1 ≤ files.length := by
  intro files
  induction files with
  | nil =>
    intro fs idx c fs2 h
    simp only [process_loop] at h
    obtain ⟨h1, _⟩ := Prod.mk.injEq .. ▸ (Except.ok.inj h)
    rw [← h1]
    exact ⟨rfl, Nat.le_refl 0⟩
  | cons f rest ih =>
    intro fs idx c fs2 h
    simp only [process_loop] at h
    by_cases hc : cancel idx = true
    · rw [if_pos hc] at h
      obtain ⟨h1, _⟩ := Prod.mk.injEq .. ▸ (Except.ok.inj h)
      rw [← h1]
      exact ⟨rfl, Nat.zero_le _⟩
    · rw [if_neg hc] at h
      cases horg : runOrganizer mode fs f dest ext_index o with
      | error e => rw [horg] at h; cases h
      | ok pr =>
        obtain ⟨r, fs1⟩ := pr
        rw [horg] at h
        cases hrec : process_loop mode dest ext_index o cancel fs1 rest (idx + 1) with
        | error e => simp only [hrec] at h; cases h
        | ok pc =>
          obtain ⟨⟨p, s, fl, sk⟩, fs3⟩ := pc
          simp only [hrec] at h
          have hih := ih fs1 (idx + 1) (p, s, fl, sk) fs3 hrec
          cases r with
          | none =>
            obtain ⟨h1, _⟩ := Prod.mk.injEq .. ▸ (Except.ok.inj h)
            rw [← h1]
            simp only [List.length_cons]
            obtain ⟨ha, hb⟩ := hih
            exact ⟨by simp at ha ⊢; omega, by simp at hb ⊢; omega⟩
          | some b =>
            cases b with
            | true =>
              obtain ⟨h1, _⟩ := Prod.mk.injEq .. ▸ (Except.ok.inj h)
              rw [← h1]
              simp only [List.length_cons]
              obtain ⟨ha, hb⟩ := hih
              exact ⟨by simp at ha ⊢; omega, by simp at hb ⊢; omega⟩
            | false =>
              obtain ⟨h1, _⟩ := Prod.mk.injEq .. ▸ (Except.ok.inj h)
              rw [← h1]
              simp only [List.length_cons]
              obtain ⟨ha, hb⟩ := hih
              exact ⟨by simp at ha ⊢; omega, by simp at hb ⊢; omega⟩

/-- C9: every completed invocation of process_directory, including runs
rejected by validation, runs over an unknown mode, empty runs and runs
cancelled partway, returns statistics with processed equal to
succeeded + failed + skipped and processed at most total. -/
theorem C9_stats_invariant (fs : FS) (validOk : Bool) (errMsg mode : String)
    (files : List FileEntry) (dest : FPath) (categories : List (String × List String))
    (o : Opts) (cancel : Nat → Bool) (st : RunStats) (fs2 : FS)
    (h : process_directory fs validOk errMsg mode files dest categories o cancel =
      .ok (st, fs2)) :
    st.processed = st.succeeded + st.failed + st.skipped ∧ st.processed ≤ st.total := by
  unfold process_directory at h
  by_cases hv : validOk = true
  · rw [hv] at h
    simp only [Bool.not_true, Bool.false_eq_true, if_false] at h
    by_cases hm : knownModes.contains mode = true
    · rw [hm] at h
      simp only [Bool.not_true, Bool.false_eq_true, if_false] at h
      by_cases ht : files.length = 0
      · rw [if_pos ht] at h
        obtain ⟨h1, _⟩ := Prod.mk.injEq .. ▸ (Except.ok.inj h)
        rw [← h1]
        exact ⟨rfl, Nat.le_refl 0⟩
      · rw [if_neg ht] at h
        cases hloop : process_loop mode dest
            (if mode = "type" then (build_ext_index categories).1 else []) o cancel fs files 1 with
        | error e => simp only [hloop] at h; cases h
        | ok pc =>
          obtain ⟨⟨p, s, fl, sk⟩, fs3⟩ := pc
          simp only [hloop] at h
          obtain ⟨h1, _⟩ := Prod.mk.injEq .. ▸ (Except.ok.inj h)
          rw [← h1]
          have := process_loop_counts mode dest
            (if mode = "type" then (build_ext_index categories).1 else []) o cancel
            files fs 1 (p, s, fl, sk) fs3 hloop
          exact ⟨by simpa using this.1, by simpa using this.2⟩
    · simp only [hm, Bool.not_false, if_true] at h
      obtain ⟨h1, _⟩ := Prod.mk.injEq .. ▸ (Except.ok.inj h)
      rw [← h1]
      exact ⟨rfl, Nat.le_refl 0⟩
  · simp only [Bool.not_eq_true] at hv
    rw [hv] at h
    simp only [Bool.not_false, if_true] at h
    obtain ⟨h1, _⟩ := Prod.mk.injEq .. ▸ (Except.ok.inj h)
    rw [← h1]
    exact ⟨rfl, Nat.le_refl 0⟩

/-- Witness for C9 on the sample run: one file, processed once and
succeeded, with the invariant holding on the returned statistics. -/
theorem C9_stats_invariant_witness :
    (⟨1, 1, 1, 0, 0, none⟩ : RunStats).processed =
      (⟨1, 1, 1, 0, 0, none⟩ : RunStats).succeeded +
      (⟨1, 1, 1, 0, 0, none⟩ : RunStats).failed +
      (⟨1, 1, 1, 0, 0, none⟩ : RunStats).skipped ∧
    (⟨1, 1, 1, 0, 0, none⟩ : RunStats).processed ≤ (⟨1, 1, 1, 0, 0, none⟩ : RunStats).total :=
  C9_stats_invariant runFS0 true "" "name" [runFile0] ["d"] [] runOpts0 (fun _ => false)
    ⟨1, 1, 1, 0, 0, none⟩ runFS1 rfl

/-- States with the same undo log extend each other. -/
theorem logExtends_of_eq {a b : FS} (h : b.undoLog = a.undoLog) : logExtends a b :=
  ⟨[], by simp [h]⟩

/-- Log extension is transitive. -/
theorem logExtends_trans {a b c : FS} (h1 : logExtends a b) (h2 : logExtends b c) :
    logExtends a c := by
  obtain ⟨t1, ht1⟩ := h1
  obtain ⟨t2, ht2⟩ := h2
  exact ⟨t1 ++ t2, by rw [ht2, ht1, List.append_assoc]⟩

/-- Moving an entry does not touch the undo log. -/
theorem moveEntry_undoLog (fs : FS) (src dst : FPath) :
    (moveEntry fs src dst).undoLog = fs.undoLog := by
  unfold moveEntry
  split_ifs <;> rfl

/-- do_transfer only ever appends to the undo log. -/
theorem do_transfer_logExtends (fs : FS) (src dst : FPath) (action : String) (dry : Bool) :
    logExtends fs (do_transfer fs src dst action dry).2 := by
  unfold do_transfer
  cases hb : do_transfer_body fs src dst action dry with
  | ok r =>
    obtain ⟨b, fs1⟩ := r
    show logExtends fs fs1
    unfold do_transfer_body at hb
    repeat' split at hb
    all_goals
      first
        | exact Except.noConfusion hb
        | exact logExtends_of_eq rfl
        | exact ⟨[upperStr action ++ "|" ++ pathToString src ++ "|" ++ pathToString dst],
            by simp [log_undo_operation, moveEntry_undoLog, do_transfer_mkdir]⟩
        | (obtain ⟨-, h5⟩ := Prod.mk.injEq .. ▸ (Except.ok.inj hb)
           rw [← h5]
           first
             | exact logExtends_of_eq rfl
             | exact ⟨[upperStr action ++ "|" ++ pathToString src ++ "|" ++ pathToString dst],
                 by simp [log_undo_operation, moveEntry_undoLog, do_transfer_mkdir]⟩)
  | error e =>
    obtain ⟨msg, fs1⟩ := e
    show logExtends fs fs1
    unfold do_transfer_body at hb
    repeat' split at hb
    all_goals
      first
        | exact Except.noConfusion hb
        | exact logExtends_of_eq rfl
        | (obtain ⟨-, h5⟩ := Prod.mk.injEq .. ▸ (Except.error.inj hb)
           rw [← h5]
           exact logExtends_of_eq rfl)

/-- resolve_conflict never touches the undo log on the ok branch. -/
theorem resolve_conflict_undoLog (fuel : Nat) (fs : FS) (d : FPath) (pol : String)
    (r : Option FPath) (fs1 : FS)
    (h : resolve_conflict fuel fs d pol = .ok (r, fs1)) : fs1.undoLog = fs.undoLog := by
  unfold resolve_conflict at h
  by_cases h1 : (!fs.pathExists d) = true
  · rw [if_pos h1] at h
    obtain ⟨-, h5⟩ := Prod.mk.injEq .. ▸ (Except.ok.inj h)
    rw [← h5]
  · rw [if_neg h1] at h
    by_cases h2 : pol = "skip"
    · rw [if_pos h2] at h
      obtain ⟨-, h5⟩ := Prod.mk.injEq .. ▸ (Except.ok.inj h)
      rw [← h5]
    · rw [if_neg h2] at h
      by_cases h3 : pol = "overwrite"
      · rw [if_pos h3] at h
        obtain ⟨-, h5⟩ := Prod.mk.injEq .. ▸ (Except.ok.inj h)
        rw [← h5]
        split_ifs <;> rfl
      · rw [if_neg h3] at h
        by_cases h4 : pol = "rename"
        · rw [if_pos h4] at h
          cases hu : unique_path fuel fs d with
          | some np =>
            rw [hu] at h
            obtain ⟨-, h5⟩ := Prod.mk.injEq .. ▸ (Except.ok.inj h)
            rw [← h5]
          | none =>
            rw [hu] at h
            obtain ⟨-, h5⟩ := Prod.mk.injEq .. ▸ (Except.ok.inj h)
            rw [← h5]
        · rw [if_neg h4] at h
          cases h

/-- finishTransfer only ever appends to the undo log. -/
theorem finishTransfer_logExtends (fs : FS) (f : FileEntry) (d : FPath) (o : Opts)
    (r : Option Bool) (fs1 : FS) (h : finishTransfer fs f d o = .ok (r, fs1)) :
    logExtends fs fs1 := by
  unfold finishTransfer at h
  cases hr : resolve_conflict o.fuel fs d o.conflict_policy with
  | error e => rw [hr] at h; cases h
  | ok pr =>
    obtain ⟨ropt, fsa⟩ := pr
    rw [hr] at h
    have hres : fsa.undoLog = fs.undoLog := resolve_conflict_undoLog _ _ _ _ _ _ hr
    cases ropt with
    | none =>
      obtain ⟨-, h5⟩ := Prod.mk.injEq .. ▸ (Except.ok.inj h)
      rw [← h5]
      exact logExtends_of_eq hres
    | some dpath =>
      obtain ⟨-, h5⟩ := Prod.mk.injEq .. ▸ (Except.ok.inj h)
      rw [← h5]
      exact logExtends_trans (logExtends_of_eq hres)
        (do_transfer_logExtends fsa f.path dpath o.action o.dry_run)

/-- Every organizer only ever appends to the undo log. -/
theorem runOrganizer_logExtends (mode : String) (fs : FS) (f : FileEntry) (dest : FPath)
    (ext_index : List (String × String)) (o : Opts) (r : Option Bool) (fs1 : FS)
    (h : runOrganizer mode fs f dest ext_index o = .ok (r, fs1)) : logExtends fs fs1 := by
  have hdate : ∀ (dest_file : FPath) (fs1 : FS),
      (match finishTransfer fs f dest_file o with
        | .error _ => Except.ok (some false, fs)
        | .ok r => .ok r) = (.ok (r, fs1) : Except String (Option Bool × FS)) →
      logExtends fs fs1 := by
    intro dest_file fs1 h
    cases hf : finishTransfer fs f dest_file o with
    | error e =>
      rw [hf] at h
      obtain ⟨-, h5⟩ := Prod.mk.injEq .. ▸ (Except.ok.inj h)
      rw [← h5]
      exact logExtends_of_eq rfl
    | ok pr =>
      obtain ⟨rr, fsa⟩ := pr
      rw [hf] at h
      obtain ⟨-, h5⟩ := Prod.mk.injEq .. ▸ (Except.ok.inj h)
      rw [← h5]
      exact finishTransfer_logExtends fs f dest_file o rr fsa hf
  unfold runOrganizer at h
  split_ifs at h with hm1 hm2 hm3 hm4 hm5
  · unfold organize_by_type at h
    cases hl : List.lookup (lowerStr f.ext) ext_index with
    | none =>
      simp only [hl] at h
      by_cases hs : o.skip_unknown = true
      · rw [if_pos hs] at h
        obtain ⟨-, h5⟩ := Prod.mk.injEq .. ▸ (Except.ok.inj h)
        rw [← h5]
        exact logExtends_of_eq rfl
      · rw [if_neg hs] at h
        exact finishTransfer_logExtends _ _ _ _ _ _ h
    | some cat =>
      simp only [hl] at h
      exact finishTransfer_logExtends _ _ _ _ _ _ h
  · exact finishTransfer_logExtends _ _ _ _ _ _ h
  · unfold organize_by_date at h
    by_cases hst : f.statOk = true
    · rw [hst] at h
      simp only [Bool.not_true, Bool.false_eq_true, if_false] at h
      exact hdate _ _ h
    · simp only [Bool.not_eq_true] at hst
      rw [hst] at h
      simp only [Bool.not_false, if_true] at h
      obtain ⟨-, h5⟩ := Prod.mk.injEq .. ▸ (Except.ok.inj h)
      rw [← h5]
      exact logExtends_of_eq rfl
  · unfold organize_by_day at h
    by_cases hst : f.statOk = true
    · rw [hst] at h
      simp only [Bool.not_true, Bool.false_eq_true, if_false] at h
      exact hdate _ _ h
    · simp only [Bool.not_eq_true] at hst
      rw [hst] at h
      simp only [Bool.not_false, if_true] at h
      obtain ⟨-, h5⟩ := Prod.mk.injEq .. ▸ (Except.ok.inj h)
      rw [← h5]
      exact logExtends_of_eq rfl
  · unfold organize_by_size at h
    by_cases hst : f.statOk = true
    · rw [hst] at h
      simp only [Bool.not_true, Bool.false_eq_true, if_false] at h
      exact hdate _ _ h
    · simp only [Bool.not_eq_true] at hst
      rw [hst] at h
      simp only [Bool.not_false, if_true] at h
      obtain ⟨-, h5⟩ := Prod.mk.injEq .. ▸ (Except.ok.inj h)
      rw [← h5]
      exact logExtends_of_eq rfl
  · unfold organize_by_first_letter at h
    exact finishTransfer_logExtends _ _ _ _ _ _ h

/-- The per file loop only ever appends to the undo log. -/
theorem process_loop_logExtends (mode : String) (dest : FPath)
    (ext_index : List (String × String)) (o : Opts) (cancel : Nat → Bool) :
    ∀ (files : List FileEntry) (fs : FS) (idx : Nat) (c : Nat × Nat × Nat × Nat) (fs2 : FS),
    process_loop mode dest ext_index o cancel fs files idx = .ok (c, fs2) →
    logExtends fs fs2 := by
  intro files
  induction files with
  | nil =>
    intro fs idx c fs2 h
    simp only [process_loop] at h
    obtain ⟨-, h5⟩ := Prod.mk.injEq .. ▸ (Except.ok.inj h)
    rw [← h5]
    exact logExtends_of_eq rfl
  | cons f rest ih =>
    intro fs idx c fs2 h
    simp only [process_loop] at h
    by_cases hc : cancel idx = true
    · rw [if_pos hc] at h
      obtain ⟨-, h5⟩ := Prod.mk.injEq .. ▸ (Except.ok.inj h)
      rw [← h5]
      exact logExtends_of_eq rfl
    · rw [if_neg hc] at h
      cases horg : runOrganizer mode fs f dest ext_index o with
      | error e => rw [horg] at h; cases h
      | ok pr =>
        obtain ⟨r, fs1⟩ := pr
        rw [horg] at h
        cases hrec : process_loop mode dest ext_index o cancel fs1 rest (idx + 1) with
        | error e => simp only [hrec] at h; cases h
        | ok pc =>
          obtain ⟨⟨p, s, fl, sk⟩, fs3⟩ := pc
          simp only [hrec] at h
          have hstep := runOrganizer_logExtends mode fs f dest ext_index o r fs1 horg
          have htail := ih fs1 (idx + 1) (p, s, fl, sk) fs3 hrec
          have hfs2 : fs3 = fs2 := by
            cases r with
            | none => exact (Prod.mk.injEq .. ▸ (Except.ok.inj h)).2
            | some b => cases b with
              | true => exact (Prod.mk.injEq .. ▸ (Except.ok.inj h)).2
              | false => exact (Prod.mk.injEq .. ▸ (Except.ok.inj h)).2
          rw [← hfs2]
          exact logExtends_trans hstep htail

/-- C2: the claim that process_directory clears the undo log at the start
of every run is refuted: the sample run starts with the foreign record
OLD already in the log, completes successfully, and ends with OLD still
in front of the record the run itself appended. The clearing observed at
run start is done by the GUI caller, outside process_directory. -/
theorem C2_clear_counterexample :
    runFS0.undoLog = some ["OLD"] ∧
    process_directory runFS0 true "" "name" [runFile0] ["d"] [] runOpts0 (fun _ => false) =
      .ok (⟨1, 1, 1, 0, 0, none⟩, runFS1) ∧
    runFS1.undoLog = some ["OLD", "MOVE|src/a.txt|d/a/a.txt"] :=
  ⟨rfl, rfl, rfl⟩

/-- C2 (amended): process_directory never clears or rewrites the undo
log; every completed invocation leaves the pre-existing records in place,
in order, and only appends the records of its own transfers after them.
Clearing at the start of a run is the job of the caller. -/
theorem C2_append_only (fs : FS) (validOk : Bool) (errMsg mode : String)
    (files : List FileEntry) (dest : FPath) (categories : List (String × List String))
    (o : Opts) (cancel : Nat → Bool) (st : RunStats) (fs2 : FS)
    (h : process_directory fs validOk errMsg mode files dest categories o cancel =
      .ok (st, fs2)) :
    logExtends fs fs2 := by
  unfold process_directory at h
  by_cases hv : validOk = true
  · rw [hv] at h
    simp only [Bool.not_true, Bool.false_eq_true, if_false] at h
    by_cases hm : knownModes.contains mode = true
    · rw [hm] at h
      simp only [Bool.not_true, Bool.false_eq_true, if_false] at h
      by_cases ht : files.length = 0
      · rw [if_pos ht] at h
        obtain ⟨-, h5⟩ := Prod.mk.injEq .. ▸ (Except.ok.inj h)
        rw [← h5]
        exact logExtends_of_eq rfl
      · rw [if_neg ht] at h
        cases hloop : process_loop mode dest
            (if mode = "type" then (build_ext_index categories).1 else []) o cancel fs files 1 with
        | error e => simp only [hloop] at h; cases h
        | ok pc =>
          obtain ⟨⟨p, s, fl, sk⟩, fs3⟩ := pc
          simp only [hloop] at h
          obtain ⟨-, h5⟩ := Prod.mk.injEq .. ▸ (Except.ok.inj h)
          rw [← h5]
          exact process_loop_logExtends mode dest _ o cancel files fs 1 (p, s, fl, sk) fs3 hloop
    · simp only [hm, Bool.not_false, if_true] at h
      obtain ⟨-, h5⟩ := Prod.mk.injEq .. ▸ (Except.ok.inj h)
      rw [← h5]
      exact logExtends_of_eq rfl
  · simp only [Bool.not_eq_true] at hv
    rw [hv] at h
    simp only [Bool.not_false, if_true] at h
    obtain ⟨-, h5⟩ := Prod.mk.injEq .. ▸ (Except.ok.inj h)
    rw [← h5]
    exact logExtends_of_eq rfl

/-- Witness for the amended C2 theorem on the sample run: its final log
extends the starting log. -/
theorem C2_append_only_witness : logExtends runFS0 runFS1 :=
  C2_append_only runFS0 true "" "name" [runFile0] ["d"] [] runOpts0 (fun _ => false)
    ⟨1, 1, 1, 0, 0, none⟩ runFS1 rfl

/-- clear_undo_log always leaves the log nonexistent. -/
theorem clear_undo_log_none (fs : FS) : (clear_undo_log fs).undoLog = none := by
  unfold clear_undo_log
  cases ho : fs.undoLog with
  | none => simp [ho]
  | some v => simp [ho]

/-- The undo loop processes every line handed to it, in order: successes
plus failures equal the number of lines, and the lines are consumed in
exactly the order given. -/
theorem undo_loop_spec (rf : Nat → Bool) (t : Nat) :
    ∀ (ls : List String) (fs : FS) (idx : Nat),
    (undo_loop rf t fs ls idx).1 + (undo_loop rf t fs ls idx).2.1 = ls.length ∧
    (undo_loop rf t fs ls idx).2.2.2.2 = ls := by
  intro ls
  induction ls with
  | nil => intro fs idx; simp [undo_loop]
  | cons l rest ih =>
    intro fs idx
    obtain ⟨ha, hc⟩ := ih (undo_step rf idx fs l).2.2 (idx + 1)
    refine ⟨?_, ?_⟩
    · simp only [undo_loop, List.length_cons]
      by_cases hs : (undo_step rf idx fs l).2.1 = true
      · rw [if_pos hs, if_pos hs]; omega
      · rw [if_neg hs, if_neg hs]; omega
    · simp only [undo_loop, hc]

/-- C5: with a readable log of given lines, perform_undo reports a total
equal to the line count, splits it exactly into successes and failures,
clears the log unconditionally at the end, and consumes the lines in
reverse order, most recently appended first; and each malformed line
(which also skips the progress callback via its continue), each line
whose recorded destination no longer exists, and each line whose restore
raises, is counted as a failure while leaving that step and the loop
able to continue. -/
theorem C5_perform_undo (rf : Nat → Bool) (fs : FS) (lines : List String)
    (h : fs.undoLog = some lines) :
    (perform_undo rf false fs).1.total = lines.length ∧
    (perform_undo rf false fs).1.succeeded + (perform_undo rf false fs).1.failed =
      lines.length ∧
    (perform_undo rf false fs).2.1.undoLog = none ∧
    (perform_undo rf false fs).2.2.2 = lines.reverse ∧
    (∀ (idx : Nat) (fs1 : FS) (l : String), (splitOnChar '|' (trimStr l)).length ≠ 3 →
      undo_step rf idx fs1 l = (false, false, fs1)) ∧
    (∀ (idx : Nat) (fs1 : FS) (l : String), (splitOnChar '|' (trimStr l)).length = 3 →
      fs1.pathExists (stringToPath ((splitOnChar '|' (trimStr l)).getD 2 "")) = false →
      undo_step rf idx fs1 l = (true, false, fs1)) ∧
    (∀ (idx : Nat) (fs1 : FS) (l : String), (splitOnChar '|' (trimStr l)).length = 3 →
      fs1.pathExists (stringToPath ((splitOnChar '|' (trimStr l)).getD 2 "")) = true →
      rf idx = true → (undo_step rf idx fs1 l).2.1 = false) := by
  have hspec := undo_loop_spec rf lines.length lines.reverse fs 1
  refine ⟨?_, ?_, ?_, ?_, ?_, ?_, ?_⟩
  · simp [perform_undo, h]
  · simpa [perform_undo, h] using hspec.1
  · simp only [perform_undo, h]
    exact clear_undo_log_none _
  · simpa [perform_undo, h] using hspec.2
  · intro idx fs1 l hm
    simp only [undo_step]
    rw [if_pos hm]
  · intro idx fs1 l h3 hdst
    simp only [undo_step]
    rw [if_neg (show ¬(splitOnChar '|' (trimStr l)).length ≠ 3 from fun hc => hc h3)]
    rw [if_neg (show
      ¬fs1.pathExists (stringToPath ((splitOnChar '|' (trimStr l)).getD 2 "")) = true
      from by rw [hdst]; simp)]
  · intro idx fs1 l h3 hdst herr
    simp only [undo_step]
    rw [if_neg (show ¬(splitOnChar '|' (trimStr l)).length ≠ 3 from fun hc => hc h3)]
    rw [if_pos hdst, if_pos herr]

/-- Witness for C5 on undoFS0: two lines, one malformed line failing and
one record restored, the log cleared, and the lines consumed most recent
first. -/
theorem C5_perform_undo_witness :
    (perform_undo (fun _ => false) false undoFS0).1.total = 2 ∧
    (perform_undo (fun _ => false) false undoFS0).1.succeeded +
      (perform_undo (fun _ => false) false undoFS0).1.failed = 2 ∧
    (perform_undo (fun _ => false) false undoFS0).2.1.undoLog = none ∧
    (perform_undo (fun _ => false) false undoFS0).2.2.2 =
      ["MOVE|src/a.txt|dst/a.txt", "BAD"] := by
  have hthm := C5_perform_undo (fun _ => false) undoFS0
    ["BAD", "MOVE|src/a.txt|dst/a.txt"] rfl
  exact ⟨hthm.1, hthm.2.1, hthm.2.2.1, hthm.2.2.2.1⟩

/-- C10: when the log file exists but reading it fails, perform_undo
returns all zero statistics, makes no progress callback call, processes
no line, and leaves the state, including the unread log lines, untouched. -/
theorem C10_read_failure (rf : Nat → Bool) (fs : FS) (lines : List String)
    (h : fs.undoLog = some lines) :
    perform_undo rf true fs = (⟨0, 0, 0⟩, fs, [], []) ∧
    (perform_undo rf true fs).2.1.undoLog = some lines := by
  refine ⟨?_, ?_⟩ <;> simp [perform_undo, h]

/-- Witness for C10 on undoFS0 with a failing read. -/
theorem C10_read_failure_witness :
    perform_undo (fun _ => false) true undoFS0 = (⟨0, 0, 0⟩, undoFS0, [], []) :=
  (C10_read_failure (fun _ => false) undoFS0 ["BAD", "MOVE|src/a.txt|dst/a.txt"] rfl).1

end FileOrganizer
